import Mathlib

/-!
Verification of the RojgarBhaskar scraping-and-publishing pipeline.

The definitions below are a shallow embedding of the two Python source files
(`scripts/scraper.py`, the main pipeline, and `scripts/scripts/scraper.py`,
the `JobScraper` class).  Pure Python string helpers (`clean`, `lower`,
substring tests, slicing) are embedded as executable functions on `List Char`;
the WordPress store and the network are collaborators, so store queries are
modelled by the response value they return (`none` for a raised exception,
`some (status, posts)` for an HTTP reply carrying the rendered titles of the
posts found by the search).
-/

namespace Scraper

/-! ## String primitives -/

/-- One pass of `re.sub(r"\s+", " ", text)`: every maximal run of whitespace
becomes a single blank. -/
def squeezeWS : List Char → List Char
  | [] => []
  | [c] => if c.isWhitespace then [' '] else [c]
  | c :: d :: rest =>
      if c.isWhitespace && d.isWhitespace then squeezeWS (d :: rest)
      else (if c.isWhitespace then ' ' else c) :: squeezeWS (d :: rest)

/-- Python `str.strip()`: drop whitespace from both ends. -/
def stripWS (l : List Char) : List Char :=
  ((l.dropWhile Char.isWhitespace).reverse.dropWhile Char.isWhitespace).reverse

/-- `clean` from `scraper.py`: collapse whitespace runs to one blank, then
strip the ends (`re.sub(r"\s+", " ", text).strip()`; empty input stays empty). -/
def clean (s : String) : String := ⟨stripWS (squeezeWS s.data)⟩

/-- Python `str.lower()` on the characters of a string. -/
def lowerStr (s : String) : String := ⟨s.data.map Char.toLower⟩

/-- Python `needle in hay` on character lists: `needle` occurs as a
contiguous substring of `hay`. -/
def substrIn (needle : List Char) : List Char → Bool
  | [] => needle.isEmpty
  | c :: rest => needle.isPrefixOf (c :: rest) || substrIn needle rest

/-- Python `needle in hay` for strings. -/
def containsSub (hay needle : String) : Bool := substrIn needle.data hay.data

/-- Python `s.startswith(p)`. -/
def startsWithStr (s p : String) : Bool := p.data.isPrefixOf s.data

/-- Python slice `s[:n]`. -/
def takeStr (s : String) (n : Nat) : String := ⟨s.data.take n⟩

/-- The normalized comparison key used by `wp_exists`:
`clean(title).lower()` (no truncation). -/
def normKey (s : String) : String := lowerStr (clean s)

/-- The comparison key used by `JobScraper.wp_post_exists`:
`title.strip().lower()` (strip only, no whitespace collapsing). -/
def stripLower (s : String) : String := lowerStr ⟨stripWS s.data⟩

/-! ## Classifier (`detect_category`, `CATEGORY_KEYWORDS`) -/

/-- `CATEGORY_KEYWORDS` from `scraper.py`, in the source's insertion order
(Python 3.7+ dicts iterate in insertion order): admit card 20, results 19,
answer key 21, syllabus 22, admission 23, latest jobs 18. -/
def CATEGORY_KEYWORDS : List (Nat × List String) :=
  [(20, ["admit card", "admit", "hall ticket", "call letter"]),
   (19, ["result", "merit list", "cut off", "score card"]),
   (21, ["answer key", "answer sheet", "objection"]),
   (22, ["syllabus", "exam pattern"]),
   (23, ["admission", "counselling", "counseling"]),
   (18, ["recruitment", "vacancy", "bharti", "jobs", "notification", "apply", "online form"])]

/-- The loop of `detect_category`: first category id whose keyword set has a
member occurring in the lowered title; `CATEGORIES["latest_jobs"] = 18` when
none matches. -/
def firstCat (t : String) : List (Nat × List String) → Nat
  | [] => 18
  | (cid, kws) :: rest =>
      if kws.any (fun kw => containsSub t kw) then cid else firstCat t rest

/-- `detect_category` from `scraper.py`. -/
def detect_category (title : String) : Nat :=
  firstCat (lowerStr title) CATEGORY_KEYWORDS

/-- The classifier priority list as §4.3 of the spec words it: AdmitCard,
Results, AnswerKey, Syllabus, Admission, with LatestJobs as a pure default
(its keyword set is not tested).  Declared for comparison with
`detect_category`. -/
def SPEC_PRIORITY : List (Nat × List String) :=
  [(20, ["admit card", "admit", "hall ticket", "call letter"]),
   (19, ["result", "merit list", "cut off", "score card"]),
   (21, ["answer key", "answer sheet", "objection"]),
   (22, ["syllabus", "exam pattern"]),
   (23, ["admission", "counselling", "counseling"])]

/-- The classifier as the spec describes it. -/
def detectCategorySpec (title : String) : Nat :=
  firstCat (lowerStr title) SPEC_PRIORITY

/-! ## Dedup gate (`wp_exists`, `JobScraper.wp_post_exists`) -/

/-- The decision of the spec's `ShouldPublish`. -/
inductive Decision
  | publish
  | skip
deriving DecidableEq

/-- `wp_exists` from `scraper.py`, over the store's reply: `none` models a
raised exception (caught, returning `False`); `some (status, posts)` an HTTP
reply whose JSON body carries the rendered titles `posts`.  The function
returns `True` only when the status is 200 and some returned title's
`clean(·).lower()` form equals the candidate's. -/
def wp_exists (resp : Option (Nat × List String)) (title : String) : Bool :=
  match resp with
  | none => false
  | some (status, posts) =>
      if status == 200 then posts.any (fun p => normKey p == normKey title)
      else false

/-- The dedup gate as consulted by `main`: publish unless `wp_exists`. -/
def shouldPublish (resp : Option (Nat × List String)) (title : String) : Decision :=
  if wp_exists resp title then Decision.skip else Decision.publish

/-- `JobScraper.wp_post_exists` from `scripts/scripts/scraper.py`: the same
shape, but comparing `strip().lower()` forms. -/
def wp_post_exists (resp : Option (Nat × List String)) (title : String) : Bool :=
  match resp with
  | none => false
  | some (status, posts) =>
      if status == 200 then posts.any (fun p => stripLower p == stripLower title)
      else false

/-! ## Helper lemmas -/

theorem isPrefixOf_self (l : List Char) : l.isPrefixOf l = true := by
  induction l with
  | nil => rfl
  | cons c rest ih => simp [List.isPrefixOf, ih]

theorem substrIn_refl (l : List Char) : substrIn l l = true := by
  cases l with
  | nil => rfl
  | cons c rest => simp [substrIn, isPrefixOf_self]

theorem containsSub_self (s : String) : containsSub s s = true := by
  simpa [containsSub] using substrIn_refl s.data

theorem lowerStr_length (s : String) : (lowerStr s).length = s.length := by
  simp only [lowerStr, String.length, List.length_map]

theorem wp_exists_iff (status : Nat) (posts : List String) (title : String) :
    wp_exists (some (status, posts)) title = true ↔
      status = 200 ∧ ∃ p ∈ posts, normKey p = normKey title := by
  unfold wp_exists
  by_cases hs : status = 200
  · subst hs
    simp [List.any_eq_true]
  · simp [hs]

theorem shouldPublish_skip_iff (resp : Option (Nat × List String))
    (title : String) :
    shouldPublish resp title = Decision.skip ↔ wp_exists resp title = true := by
  unfold shouldPublish
  split <;> simp_all

theorem firstCat_append_last (t : String) (l : List (Nat × List String))
    (kws : List String) : firstCat t (l ++ [(18, kws)]) = firstCat t l := by
  induction l with
  | nil =>
      simp only [List.nil_append, firstCat]
      split <;> rfl
  | cons hd tl ih =>
      obtain ⟨cid, ks⟩ := hd
      simp only [List.cons_append, firstCat]
      split <;> simp [ih]

/-! ## Claim theorems: classifier -/

/-- Claim C2: the classifier tests the lowered title against the keyword sets
in the fixed priority order AdmitCard, Results, AnswerKey, Syllabus,
Admission, returning the first match and LatestJobs (18) otherwise (the
source's extra test of the LatestJobs keyword set before the default changes
nothing); a title containing both "admit card" and "result" classifies as
AdmitCard (20), never Results (19). -/
theorem classifier_fixed_priority :
    (∀ title, detect_category title = detectCategorySpec title) ∧
    (∀ title, containsSub (lowerStr title) "admit card" = true →
      containsSub (lowerStr title) "result" = true →
      detect_category title = 20 ∧ detect_category title ≠ 19) := by
  constructor
  · intro title
    have h : CATEGORY_KEYWORDS = SPEC_PRIORITY ++
        [(18, ["recruitment", "vacancy", "bharti", "jobs", "notification",
               "apply", "online form"])] := rfl
    rw [detect_category, detectCategorySpec, h, firstCat_append_last]
  · intro title h1 _h2
    have : detect_category title = 20 := by
      simp [detect_category, CATEGORY_KEYWORDS, firstCat, h1]
    exact ⟨this, by rw [this]; decide⟩

/-- Witness for C2 at a concrete title holding both keyword families. -/
theorem classifier_fixed_priority_witness :
    containsSub (lowerStr "SSC CGL Admit Card and Result 2025") "admit card" = true ∧
    detect_category "SSC CGL Admit Card and Result 2025" = 20 :=
  ⟨by decide,
   (classifier_fixed_priority.2 "SSC CGL Admit Card and Result 2025"
      (by decide) (by decide)).1⟩

/-! ## Claim theorems: dedup gate -/

/-- Claim C1, counterexample: the normalized candidate title
"SSC CGL 2025 Recruitment" is a proper prefix of the normalized store title
"SSC CGL 2025 Recruitment — Apply Online", yet the gate answers `publish`
even when the store's search returns exactly that title: `wp_exists` demands
exact equality of the normalized titles, so containment alone never skips. -/
theorem dedup_containment_cex :
    List.isPrefixOf (normKey "SSC CGL 2025 Recruitment").data
      (normKey "SSC CGL 2025 Recruitment — Apply Online").data = true ∧
    normKey "SSC CGL 2025 Recruitment" ≠
      normKey "SSC CGL 2025 Recruitment — Apply Online" ∧
    shouldPublish (some (200, ["SSC CGL 2025 Recruitment — Apply Online"]))
      "SSC CGL 2025 Recruitment" = Decision.publish := by
  decide

/-- Claim C1, amended: the gate skips exactly when the reply status is 200 and
some returned store title's case-folded whitespace-collapsed form is equal to
the candidate's; a failed query always publishes.  `wp_post_exists` follows the
same rule with strip-only normalization.  Containment in either direction
without exact equality never causes a skip. -/
theorem dedup_exact_match_rule :
    (∀ status posts title,
       shouldPublish (some (status, posts)) title = Decision.skip ↔
         (status = 200 ∧ ∃ p ∈ posts, normKey p = normKey title)) ∧
    (∀ title, shouldPublish none title = Decision.publish) ∧
    (∀ status posts title,
       wp_post_exists (some (status, posts)) title = true ↔
         (status = 200 ∧ ∃ p ∈ posts, stripLower p = stripLower title)) := by
  refine ⟨?_, ?_, ?_⟩
  · intro status posts title
    rw [shouldPublish_skip_iff, wp_exists_iff]
  · intro title
    simp [shouldPublish, wp_exists]
  · intro status posts title
    unfold wp_post_exists
    by_cases hs : status = 200
    · subst hs
      simp [List.any_eq_true]
    · simp [hs]

/-- Claim C9: a store-side query failure (exception reply `none`, or any
status other than 200) makes the existence check return `False`, so the
pipeline proceeds to publish; a query failure can never cause a skip. -/
theorem store_failure_never_skips (resp : Option (Nat × List String))
    (title : String)
    (h : resp = none ∨ ∃ status posts, resp = some (status, posts) ∧ status ≠ 200) :
    wp_exists resp title = false ∧ wp_post_exists resp title = false ∧
      shouldPublish resp title = Decision.publish := by
  rcases h with h | ⟨status, posts, rfl, hst⟩
  · subst h
    simp [wp_exists, wp_post_exists, shouldPublish]
  · simp [wp_exists, wp_post_exists, shouldPublish, hst, Nat.beq_eq_true_eq]

/-- Witness for C9: a 404 reply that even carries the exact candidate title
still publishes. -/
theorem store_failure_never_skips_witness :
    wp_exists (some (404, ["Railway Group D Result 2025"]))
      "Railway Group D Result 2025" = false ∧
    wp_post_exists (some (404, ["Railway Group D Result 2025"]))
      "Railway Group D Result 2025" = false ∧
    shouldPublish (some (404, ["Railway Group D Result 2025"]))
      "Railway Group D Result 2025" = Decision.publish :=
  store_failure_never_skips _ _ (Or.inr ⟨404, _, rfl, by decide⟩)

/-! ## Title resolution and excerpt (`build_content`, `JobScraper.parse_article`) -/

/-- The title resolution of `build_content`:
`page_title = clean(soup.title.string) if soup.title else title` followed by
`final_title = page_title if len(page_title) > 10 else title`. -/
def resolvedTitle (docTitle : Option String) (fallback : String) : String :=
  match docTitle with
  | some s => if 10 < (clean s).length then clean s else fallback
  | none => fallback

/-- The title branch of `JobScraper.parse_article`: the first `h1`'s stripped
text when non-empty, else the `title` tag's stripped text cut to 100
characters, else `"Job Post"`. -/
def parse_article_title (h1 : Option String) (titleTag : Option String) : String :=
  let t1 : String :=
    match h1 with
    | some s => ⟨stripWS s.data⟩
    | none => ""
  let t2 : String :=
    if t1 = "" then
      match titleTag with
      | some s => ⟨(stripWS s.data).take 100⟩
      | none => ""
    else t1
  if t2 = "" then "Job Post" else t2

/-- Title resolution as §4.2 of the spec words it, for comparison with
`resolvedTitle`: first heading of 20–200 characters containing a job-domain
keyword, else the document title if longer than 20, else the og-title, else
the candidate title. -/
def specResolvedTitle (headings : List String) (docTitle : Option String)
    (ogTitle : Option String) (cand : String) : String :=
  match headings.find? (fun h =>
      decide (20 ≤ h.length ∧ h.length ≤ 200) &&
      ["recruitment", "vacancy", "notification", "admit", "result", "apply"].any
        (fun kw => containsSub (lowerStr h) kw)) with
  | some h => h
  | none =>
      match docTitle with
      | some d =>
          if 20 < d.length then d
          else match ogTitle with
               | some og => og
               | none => cand
      | none =>
          match ogTitle with
          | some og => og
          | none => cand

/-- The excerpt loop of `build_content`: the first paragraph whose cleaned
text `t` satisfies `50 < len(t) < 400`, the cleaned text being kept; `""`
when no paragraph qualifies. -/
def excerptOf (paragraphs : List String) : String :=
  match paragraphs.find?
      (fun p => decide (50 < (clean p).length ∧ (clean p).length < 400)) with
  | some p => clean p
  | none => ""

/-! ## Per-candidate publish loop of `main` (events) -/

/-- Observable interactions of `main`'s per-candidate body with the store. -/
inductive Ev
  | gateCheck (title : String)
  | createPost (title : String)
deriving DecidableEq

def isGate : Ev → Bool
  | Ev.gateCheck _ => true
  | Ev.createPost _ => false

/-- The store interactions of one iteration of `main`'s publish loop:
`wp_exists` is consulted once with the candidate's raw title; on a match the
candidate is skipped, otherwise `wp_post` is called with that same raw title.
`posts` is the store's reply to the single search. -/
def processCandidate (posts : List String) (title : String) : List Ev :=
  if wp_exists (some (200, posts)) title then [Ev.gateCheck title]
  else [Ev.gateCheck title, Ev.createPost title]

/-! ## Cross-source dedup of `main` -/

/-- The key of `main`'s dedup loop: `clean(t).lower()[:50]`. -/
def dedupKey (t : String) : String := takeStr (lowerStr (clean t)) 50

/-- The dedup loop of `main`: keep an item when its key is unseen and longer
than 10 characters, remembering the key. -/
def dedupeItems (seen : List String) : List (String × String) → List (String × String)
  | [] => []
  | (t, l) :: rest =>
      if !(seen.contains (dedupKey t)) && decide (10 < (dedupKey t).length) then
        (t, l) :: dedupeItems (dedupKey t :: seen) rest
      else dedupeItems seen rest

/-- `main`'s `unique` list: dedup starting from an empty seen set. -/
def dedupe (items : List (String × String)) : List (String × String) :=
  dedupeItems [] items

/-- The items `main` actually processes: `unique[:MAX_ITEMS]`. -/
def processedItems (items : List (String × String)) (maxItems : Nat) :
    List (String × String) :=
  (dedupe items).take maxItems

theorem contains_false_iff (l : List String) (a : String) :
    l.contains a = false ↔ a ∉ l := by
  simp

theorem dedupeItems_spec (items : List (String × String)) : ∀ seen,
    (∀ x ∈ dedupeItems seen items,
       x ∈ items ∧ 10 < (dedupKey x.1).length ∧ dedupKey x.1 ∉ seen) ∧
    ((dedupeItems seen items).map (fun x => dedupKey x.1)).Nodup := by
  induction items with
  | nil => intro seen; simp [dedupeItems]
  | cons hd tl ih =>
      intro seen
      obtain ⟨t, l⟩ := hd
      by_cases h : (!(seen.contains (dedupKey t)) &&
          decide (10 < (dedupKey t).length)) = true
      · rw [Bool.and_eq_true, Bool.not_eq_true', decide_eq_true_eq] at h
        obtain ⟨hseen, hlen⟩ := h
        have hmem : dedupKey t ∉ seen := (contains_false_iff _ _).mp hseen
        have hrec : dedupeItems seen ((t, l) :: tl) =
            (t, l) :: dedupeItems (dedupKey t :: seen) tl := by
          rw [dedupeItems]
          rw [if_pos]
          rw [Bool.and_eq_true, Bool.not_eq_true', decide_eq_true_eq]
          exact ⟨(contains_false_iff _ _).mpr hmem, hlen⟩
        rw [hrec]
        obtain ⟨ihmem, ihnd⟩ := ih (dedupKey t :: seen)
        refine ⟨?_, ?_⟩
        · intro x hx
          rcases List.mem_cons.mp hx with rfl | hx
          · exact ⟨List.mem_cons_self _ _, hlen, hmem⟩
          · obtain ⟨h1, h2, h3⟩ := ihmem x hx
            exact ⟨List.mem_cons_of_mem _ h1, h2,
              fun hm => h3 (List.mem_cons_of_mem _ hm)⟩
        · rw [List.map_cons, List.nodup_cons]
          refine ⟨?_, ihnd⟩
          intro hmm
          obtain ⟨x, hx, hkey⟩ := List.mem_map.mp hmm
          exact (ihmem x hx).2.2 (hkey ▸ List.mem_cons_self _ _)
      · have hrec : dedupeItems seen ((t, l) :: tl) = dedupeItems seen tl := by
          rw [dedupeItems, if_neg]
          simpa using h
        rw [hrec]
        obtain ⟨ihmem, ihnd⟩ := ih seen
        refine ⟨?_, ihnd⟩
        intro x hx
        obtain ⟨h1, h2, h3⟩ := ihmem x hx
        exact ⟨List.mem_cons_of_mem _ h1, h2, h3⟩

theorem dedupeItems_first (items : List (String × String)) : ∀ seen t l,
    (t, l) ∈ items → 10 < (dedupKey t).length → dedupKey t ∉ seen →
    ∃ x ∈ dedupeItems seen items, dedupKey x.1 = dedupKey t := by
  induction items with
  | nil => intro seen t l hm; simp at hm
  | cons hd tl ih =>
      intro seen t l hm hlen hseen
      obtain ⟨a, b⟩ := hd
      by_cases hk : (!(seen.contains (dedupKey a)) &&
          decide (10 < (dedupKey a).length)) = true
      · have hrec : dedupeItems seen ((a, b) :: tl) =
            (a, b) :: dedupeItems (dedupKey a :: seen) tl := by
          rw [dedupeItems, if_pos hk]
        rw [hrec]
        by_cases heq : dedupKey t = dedupKey a
        · exact ⟨(a, b), List.mem_cons_self _ _, heq.symm⟩
        · rcases List.mem_cons.mp hm with hhd | htl
          · exact absurd (congrArg (fun y => dedupKey y.1) hhd) heq
          · obtain ⟨x, hx, hkey⟩ := ih (dedupKey a :: seen) t l htl hlen
              (by
                intro hmm
                rcases List.mem_cons.mp hmm with h1 | h1
                · exact heq h1
                · exact hseen h1)
            exact ⟨x, List.mem_cons_of_mem _ hx, hkey⟩
      · have hrec : dedupeItems seen ((a, b) :: tl) = dedupeItems seen tl := by
          rw [dedupeItems, if_neg]
          simpa using hk
        rw [hrec]
        rcases List.mem_cons.mp hm with hhd | htl
        · exfalso
          have : dedupKey a = dedupKey t := congrArg (fun y => dedupKey y.1) hhd.symm
          rw [Bool.and_eq_true, Bool.not_eq_true', decide_eq_true_eq] at hk
          apply hk
          constructor
          · rw [this]
            exact (contains_false_iff _ _).mpr hseen
          · rw [this]
            exact hlen
        · exact ih seen t l htl hlen hseen

/-! ## Claim theorems: pipeline and dedupe -/

/-- Claim C3, counterexample: in `main`'s publish loop the gate is consulted
exactly once (with the raw candidate title), not twice; here the resolved
title of the detail page matches an existing store title exactly, yet
`wp_post` is still invoked, because the resolved title is never re-checked. -/
theorem two_phase_dedup_cex :
    ((processCandidate ["Combined Graduate Level Examination 2025 Notification"]
        "CGL Notification").filter isGate).length = 1 ∧
    normKey (resolvedTitle
        (some "Combined Graduate Level Examination 2025 Notification")
        "CGL Notification") ∈
      (["Combined Graduate Level Examination 2025 Notification"].map normKey) ∧
    Ev.createPost "CGL Notification" ∈
      processCandidate ["Combined Graduate Level Examination 2025 Notification"]
        "CGL Notification" := by
  decide

/-- Claim C3, amended: the dedup gate is consulted exactly once per candidate,
with the candidate's raw title, before content building; `wp_post` is not
invoked when that single check matches, and no second check with the resolved
title exists. -/
theorem single_dedup_check (posts : List String) (title : String) :
    (processCandidate posts title).filter isGate = [Ev.gateCheck title] ∧
    (wp_exists (some (200, posts)) title = true →
      Ev.createPost title ∉ processCandidate posts title) := by
  unfold processCandidate
  by_cases h : wp_exists (some (200, posts)) title
  · rw [if_pos h]
    exact ⟨rfl, fun _ hm => by simp at hm⟩
  · rw [if_neg h]
    exact ⟨rfl, fun hc => absurd hc h⟩

theorem dedupeItems_keeps_first :
    ∀ (pre : List (String × String)) (seen : List String) (t l : String)
      (post : List (String × String)),
      10 < (dedupKey t).length → dedupKey t ∉ seen →
      (∀ y ∈ pre, dedupKey y.1 ≠ dedupKey t) →
      (t, l) ∈ dedupeItems seen (pre ++ (t, l) :: post) := by
  intro pre
  induction pre with
  | nil =>
      intro seen t l post hlen hseen _
      have hcond : (!(seen.contains (dedupKey t)) &&
          decide (10 < (dedupKey t).length)) = true := by
        rw [Bool.and_eq_true, Bool.not_eq_true', decide_eq_true_eq]
        exact ⟨(contains_false_iff _ _).mpr hseen, hlen⟩
      rw [List.nil_append, dedupeItems, if_pos hcond]
      exact List.mem_cons_self _ _
  | cons hd tlp ih =>
      intro seen t l post hlen hseen hpre
      obtain ⟨a, b⟩ := hd
      rw [List.cons_append]
      by_cases hk : (!(seen.contains (dedupKey a)) &&
          decide (10 < (dedupKey a).length)) = true
      · rw [dedupeItems, if_pos hk]
        refine List.mem_cons_of_mem _ (ih (dedupKey a :: seen) t l post hlen ?_ ?_)
        · intro hm
          rcases List.mem_cons.mp hm with h1 | h1
          · exact hpre (a, b) (List.mem_cons_self _ _) h1.symm
          · exact hseen h1
        · intro y hy
          exact hpre y (List.mem_cons_of_mem _ hy)
      · rw [dedupeItems, if_neg hk]
        exact ih seen t l post hlen hseen
          (fun y hy => hpre y (List.mem_cons_of_mem _ hy))

/-- Claim C10: every item surviving `main`'s cross-source dedup has a
normalized key longer than 10 characters (so short-key candidates are dropped
and, the publish loop drawing only from `unique[:MAX_ITEMS]`, are never
checked against the store nor published); the surviving keys are pairwise
distinct; every candidate with an admissible key is represented among the
kept items; and the first candidate carrying a given admissible key is the
one kept. -/
theorem cross_source_dedup (items : List (String × String)) (maxItems : Nat) :
    (∀ x ∈ dedupe items, 10 < (dedupKey x.1).length) ∧
    (∀ x ∈ processedItems items maxItems, 10 < (dedupKey x.1).length) ∧
    ((dedupe items).map (fun x => dedupKey x.1)).Nodup ∧
    (∀ t l, (t, l) ∈ items → 10 < (dedupKey t).length →
       ∃ x ∈ dedupe items, dedupKey x.1 = dedupKey t) ∧
    (∀ pre t l post, items = pre ++ (t, l) :: post →
       10 < (dedupKey t).length →
       (∀ y ∈ pre, dedupKey y.1 ≠ dedupKey t) →
       (t, l) ∈ dedupe items) := by
  obtain ⟨hmem, hnd⟩ := dedupeItems_spec items []
  refine ⟨fun x hx => (hmem x hx).2.1, ?_, hnd, ?_, ?_⟩
  · intro x hx
    have : x ∈ dedupe items := List.take_subset _ _ hx
    exact (hmem x this).2.1
  · intro t l hm hlen
    exact dedupeItems_first items [] t l hm hlen (by simp)
  · intro pre t l post hsplit hlen hpre
    rw [dedupe, hsplit]
    exact dedupeItems_keeps_first pre [] t l post hlen (by simp) hpre

/-! ## Claim theorems: title resolution and excerpt -/

/-- Claim C7, counterexample: the detail page has no qualifying heading and a
document title of only 16 characters, so the spec's priority chain falls
through to the caller-supplied candidate title; `build_content` nevertheless
uses the document title, because its only rule is "document title when longer
than 10 characters, else candidate title". -/
theorem title_priority_cex :
    specResolvedTitle [] (some "Www Example Site") none
      "UPSC Recruitment 2025 Apply Online Form" =
      "UPSC Recruitment 2025 Apply Online Form" ∧
    resolvedTitle (some "Www Example Site")
      "UPSC Recruitment 2025 Apply Online Form" = "Www Example Site" ∧
    "Www Example Site" ≠ "UPSC Recruitment 2025 Apply Online Form" := by
  decide

/-- Claim C7, amended: in the main pipeline the resolved title is the cleaned
document title whenever its length exceeds 10, and the candidate title
otherwise (headings and og-title metadata are never consulted); in the
secondary script's parser the first `h1`'s text wins unconditionally whenever
non-empty, with no 20–200-character or keyword constraint. -/
theorem title_resolution_rule :
    (∀ cand, resolvedTitle none cand = cand) ∧
    (∀ s cand, 10 < (clean s).length → resolvedTitle (some s) cand = clean s) ∧
    (∀ s cand, (clean s).length ≤ 10 → resolvedTitle (some s) cand = cand) ∧
    (∀ s tt, stripWS s.data ≠ [] →
       parse_article_title (some s) tt = ⟨stripWS s.data⟩) := by
  refine ⟨fun cand => rfl, ?_, ?_, ?_⟩
  · intro s cand h
    simp [resolvedTitle, h]
  · intro s cand h
    simp [resolvedTitle, Nat.not_lt.mpr h]
  · intro s tt h
    have hne : (⟨stripWS s.data⟩ : String) ≠ "" := by
      intro hx
      apply h
      have : (⟨stripWS s.data⟩ : String).data = ("" : String).data := by rw [hx]
      simpa using this
    simp [parse_article_title, hne]

/-- Witness for C7's amended rule at concrete pages. -/
theorem title_resolution_rule_witness :
    resolvedTitle (some "Indian Navy Agniveer SSR Recruitment 2025")
      "Navy Jobs" = clean "Indian Navy Agniveer SSR Recruitment 2025" ∧
    parse_article_title (some "Army Bharti") none = ⟨stripWS "Army Bharti".data⟩ :=
  ⟨title_resolution_rule.2.1 "Indian Navy Agniveer SSR Recruitment 2025"
      "Navy Jobs" (by decide),
   title_resolution_rule.2.2.2 "Army Bharti" none (by decide)⟩

set_option maxRecDepth 8192 in
/-- Claim C8, counterexample: a paragraph whose cleaned text is exactly 50
characters long lies inside the spec's interval [50, 500], yet the excerpt
loop rejects it (`50 < len` is strict), leaving the excerpt empty. -/
theorem excerpt_bounds_cex :
    (clean ⟨List.replicate 50 'a'⟩).length = 50 ∧
    excerptOf [⟨List.replicate 50 'a'⟩] = "" ∧
    excerptOf [⟨List.replicate 450 'b'⟩] = "" := by
  decide

/-- Claim C8, amended: the excerpt is the cleaned text of the first paragraph
whose cleaned length lies strictly between 50 and 400 characters, and is empty
when no paragraph qualifies; paragraphs of length exactly 50, or of length 400
up to 500, do not qualify. -/
theorem excerpt_first_qualifying :
    (∀ ps, excerptOf ps = "" ∨
       (50 < (excerptOf ps).length ∧ (excerptOf ps).length < 400)) ∧
    (∀ p ps, 50 < (clean p).length → (clean p).length < 400 →
       excerptOf (p :: ps) = clean p) ∧
    (∀ p ps, ¬(50 < (clean p).length ∧ (clean p).length < 400) →
       excerptOf (p :: ps) = excerptOf ps) ∧
    (∀ ps, excerptOf [] = "" ∧ excerptOf ps = excerptOf ps) := by
  refine ⟨?_, ?_, ?_, fun ps => ⟨rfl, rfl⟩⟩
  · intro ps
    unfold excerptOf
    cases h : ps.find?
        (fun p => decide (50 < (clean p).length ∧ (clean p).length < 400)) with
    | none => exact Or.inl rfl
    | some p =>
        right
        have := List.find?_some h
        rw [decide_eq_true_eq] at this
        exact this
  · intro p ps h1 h2
    unfold excerptOf
    rw [List.find?_cons_of_pos]
    rw [decide_eq_true_eq]
    exact ⟨h1, h2⟩
  · intro p ps h
    unfold excerptOf
    rw [List.find?_cons_of_neg]
    rw [decide_eq_true_eq]
    exact h

/-- Witness for C8's amended rule at a concrete paragraph list. -/
theorem excerpt_first_qualifying_witness :
    excerptOf [⟨List.replicate 60 'c'⟩, ⟨List.replicate 70 'd'⟩] =
      clean ⟨List.replicate 60 'c'⟩ :=
  excerpt_first_qualifying.2.1 ⟨List.replicate 60 'c'⟩
    [⟨List.replicate 70 'd'⟩] (by decide) (by decide)

/-! ## Link extraction (`extract_links`, `is_blocked`) -/

/-- `BLOCKED_DOMAINS` from `scraper.py`. -/
def BLOCKED_DOMAINS : List String := ["sarkariexam.com", "rojgarlive.com", "naukri.com"]

/-- `is_blocked` from `scraper.py`: some blocked domain occurs in the lowered
URL. -/
def is_blocked (url : String) : Bool :=
  BLOCKED_DOMAINS.any (fun d => containsSub (lowerStr url) d)

/-- The `excluded_in_output` list local to `extract_links`. -/
def EXCLUDED_IN_OUTPUT : List String :=
  ["fresherslive", "sarkarinaukri", "hirelateral", "employmentnews", "freejobalert.com"]

/-- The aggregator-exclusion test of `extract_links`:
`any(d in href.lower() for d in excluded_in_output)`. -/
def isExcludedOutput (url : String) : Bool :=
  EXCLUDED_IN_OUTPUT.any (fun d => containsSub (lowerStr url) d)

/-- An anchor element: its visible text and its href. -/
structure Anchor where
  text : String
  href : String
deriving DecidableEq

/-- The `links` dict of `extract_links`. -/
structure Links where
  apply : Option String
  notification : Option String
  official : Option String
deriving DecidableEq

/-- The lowered cleaned anchor text `extract_links` matches keywords
against. -/
def anchorText (a : Anchor) : String := lowerStr (clean a.text)

/-- One iteration of the anchor loop in `extract_links`. -/
def linkStep (ls : Links) (a : Anchor) : Links :=
  if !(startsWithStr a.href "http") || is_blocked a.href then ls
  else if isExcludedOutput a.href then ls
  else if (containsSub (anchorText a) "apply" ||
      containsSub (anchorText a) "registration") && ls.apply.isNone then
    { ls with apply := some a.href }
  else if (containsSub (anchorText a) "notification" ||
      containsSub (anchorText a) "pdf" ||
      containsSub (anchorText a) "download") && ls.notification.isNone then
    { ls with notification := some a.href }
  else if (containsSub (anchorText a) "official" ||
      containsSub (anchorText a) "website") && ls.official.isNone then
    { ls with official := some a.href }
  else ls

/-- `extract_links` from `scraper.py` over the page's anchors in document
order. -/
def extract_links (anchors : List Anchor) : Links :=
  anchors.foldl linkStep ⟨none, none, none⟩

/-- A (label, url) entry for one optional link slot. -/
def optEntry (label : String) (o : Option String) : List (String × String) :=
  match o with
  | some u => [(label, u)]
  | none => []

/-- The filled slots of a `Links` value as (label, url) entries, labels as the
composer renders them. -/
def linkEntries (ls : Links) : List (String × String) :=
  optEntry "Apply Online" ls.apply ++ optEntry "Notification PDF" ls.notification ++
    optEntry "Official Website" ls.official

/-! ## Document composer (`build_content`) -/

/-- `extract_details`' result dict: each slot is a labelled table value found
on the page, absent when no table row matched its keywords. -/
structure Details where
  org : Option String
  postName : Option String
  qual : Option String
  vacancy : Option String
  last_date : Option String
  salary : Option String
  age : Option String
  fee : Option String
deriving DecidableEq

/-- The kinds of sections a composed document can carry, including the
Important Dates / Fee / Age kinds the spec names (for stating their absence). -/
inductive SectionKind
  | header
  | overview
  | vacancyTable
  | linksTable
  | faqBlock
  | footer
  | importantDates
  | feeTable
  | ageTable
deriving DecidableEq

/-- A section of the composed document, carrying the data `build_content`
interpolates into it (the fixed HTML boilerplate around the data is
presentation, which §6 of the spec puts outside the contract). -/
inductive Section
  | header (title : String)
  | overview (text : String)
  | vacancyTable (rows : List (String × String))
  | linksTable (rows : List (String × String))
  | faqBlock (entries : List String)
  | footer
  | importantDates (rows : List (String × String))
deriving DecidableEq

def Section.kind : Section → SectionKind
  | Section.header _ => SectionKind.header
  | Section.overview _ => SectionKind.overview
  | Section.vacancyTable _ => SectionKind.vacancyTable
  | Section.linksTable _ => SectionKind.linksTable
  | Section.faqBlock _ => SectionKind.faqBlock
  | Section.footer => SectionKind.footer
  | Section.importantDates _ => SectionKind.importantDates

/-- The canned overview sentence of `build_content` (used when the excerpt is
empty). -/
def OVERVIEW_FALLBACK : String :=
  "नवीनतम सरकारी नौकरी अधिसूचना। नीचे दी गई पूरी जानकारी देखें और समय पर आवेदन करें।"

/-- The rows of `build_content`'s single Vacancy Details table, with the
source's fallback value for each absent detail. -/
def vacancyRows (d : Details) : List (String × String) :=
  [("Organization", d.org.getD "See Official Notification"),
   ("Post Name", d.postName.getD "Various Posts"),
   ("Qualification", d.qual.getD "As per Notification"),
   ("Total Vacancy", d.vacancy.getD "Check Notification"),
   ("Age Limit", d.age.getD "As per Rules"),
   ("Salary", d.salary.getD "As per Govt Norms"),
   ("Application Fee", d.fee.getD "Check Notification"),
   ("Last Date", d.last_date.getD "Check Official Website")]

/-- The rows of `build_content`'s Important Links table: one labelled action
row per filled link slot, then the unconditional "Full Details" row pointing
at the source page. -/
def linkRows (ls : Links) (srcLink : String) : List (String × String) :=
  linkEntries ls ++ [("Full Details", srcLink)]

/-- The sections of `build_content`'s output, in the order the source emits
them: header, overview (canned sentence when the excerpt is empty), the
single Vacancy Details table, the Important Links table, the FAQ block (only
when FAQs were found), and the fixed follow footer. -/
def composeDoc (finalTitle excerpt : String) (d : Details) (ls : Links)
    (faqs : List String) (srcLink : String) : List Section :=
  [Section.header finalTitle,
   Section.overview (if excerpt = "" then OVERVIEW_FALLBACK else excerpt),
   Section.vacancyTable (vacancyRows d),
   Section.linksTable (linkRows ls srcLink)] ++
  (if faqs.isEmpty then [] else [Section.faqBlock faqs]) ++
  [Section.footer]

/-! ## Claim theorems: composer -/

/-- Claim C4, counterexample: for a record with zero extracted date rows (all
details absent) the composed document has no Important Dates section at all —
the fallback "Check Notification" only appears inside the single Vacancy
Details table — and the section order is header, overview, vacancy table,
links table, footer, not the nine-section order the claim states. -/
theorem compose_order_cex :
    ((composeDoc "UPSC Recruitment 2025" ""
        ⟨none, none, none, none, none, none, none, none⟩
        ⟨none, none, none⟩ [] "https://example.org/a").map Section.kind =
      [SectionKind.header, SectionKind.overview, SectionKind.vacancyTable,
       SectionKind.linksTable, SectionKind.footer]) ∧
    SectionKind.importantDates ∉
      ((composeDoc "UPSC Recruitment 2025" ""
          ⟨none, none, none, none, none, none, none, none⟩
          ⟨none, none, none⟩ [] "https://example.org/a").map Section.kind) ∧
    ("Total Vacancy", "Check Notification") ∈
      vacancyRows ⟨none, none, none, none, none, none, none, none⟩ := by
  decide

/-- Claim C4, amended: for every record the composed document's sections
appear in the fixed order header, overview, Vacancy Details table, Important
Links table, FAQ block (omitted exactly when no FAQs), footer; it never
contains an Important Dates section; and when the vacancy or fee detail is
absent the fallback "Check Notification" appears as that row's value inside
the Vacancy Details table. -/
theorem compose_fixed_order (finalTitle excerpt : String) (d : Details)
    (ls : Links) (faqs : List String) (src : String) :
    ((composeDoc finalTitle excerpt d ls faqs src).map Section.kind =
      [SectionKind.header, SectionKind.overview, SectionKind.vacancyTable,
       SectionKind.linksTable] ++
      (if faqs.isEmpty then [] else [SectionKind.faqBlock]) ++
      [SectionKind.footer]) ∧
    (SectionKind.importantDates ∉
      (composeDoc finalTitle excerpt d ls faqs src).map Section.kind) ∧
    (d.vacancy = none → ("Total Vacancy", "Check Notification") ∈ vacancyRows d) ∧
    (d.fee = none → ("Application Fee", "Check Notification") ∈ vacancyRows d) := by
  refine ⟨?_, ?_, ?_, ?_⟩
  · by_cases h : faqs.isEmpty <;> simp [composeDoc, h, Section.kind]
  · by_cases h : faqs.isEmpty <;> simp [composeDoc, h, Section.kind]
  · intro h
    simp [vacancyRows, h]
  · intro h
    simp [vacancyRows, h]

/-- Witness for C4's amended statement at a concrete record. -/
theorem compose_fixed_order_witness :
    ("Total Vacancy", "Check Notification") ∈
      vacancyRows ⟨some "SSC", some "Clerk", none, none, none, none, none, none⟩ ∧
    ("Application Fee", "Check Notification") ∈
      vacancyRows ⟨some "SSC", some "Clerk", none, none, none, none, none, none⟩ :=
  ⟨(compose_fixed_order "T" "" _ ⟨none, none, none⟩ [] "u").2.2.1 rfl,
   (compose_fixed_order "T" "" _ ⟨none, none, none⟩ [] "u").2.2.2 rfl⟩

/-! ## Claim theorems: link extraction -/

/-- Claim C5, counterexample: two anchors with different texts but the same
target URL fill two different labels with that one URL, so a given URL *is*
reused across two labels. -/
theorem link_url_reuse_cex :
    (extract_links
        [⟨"Apply Online Now", "https://x.example/go"⟩,
         ⟨"Download Notification PDF", "https://x.example/go"⟩]).apply =
      some "https://x.example/go" ∧
    (extract_links
        [⟨"Apply Online Now", "https://x.example/go"⟩,
         ⟨"Download Notification PDF", "https://x.example/go"⟩]).notification =
      some "https://x.example/go" ∧
    ¬ ((linkEntries (extract_links
        [⟨"Apply Online Now", "https://x.example/go"⟩,
         ⟨"Download Notification PDF", "https://x.example/go"⟩])).map
          Prod.snd).Nodup := by
  decide

/-- The invariant `extract_links` maintains: every filled slot holds an
http(s) URL that is neither in the blocked-domain list nor an aggregator
domain excluded from output. -/
def LinksOk (ls : Links) : Prop :=
  ∀ u, (ls.apply = some u ∨ ls.notification = some u ∨ ls.official = some u) →
    startsWithStr u "http" = true ∧ is_blocked u = false ∧
      isExcludedOutput u = false

theorem linkStep_ok (ls : Links) (a : Anchor) (h : LinksOk ls) :
    LinksOk (linkStep ls a) := by
  unfold linkStep
  split
  · exact h
  · split
    · exact h
    · rename_i hgate hexcl
      rw [Bool.not_eq_true] at hexcl
      simp only [Bool.or_eq_true, not_or, Bool.not_eq_true,
        Bool.not_eq_false'] at hgate
      obtain ⟨hhttp, hblock⟩ := hgate
      split
      · intro u hu
        rcases hu with hu | hu | hu
        · simp only at hu
          injection hu with hu
          subst hu
          exact ⟨hhttp, hblock, hexcl⟩
        · exact h u (Or.inr (Or.inl hu))
        · exact h u (Or.inr (Or.inr hu))
      · split
        · intro u hu
          rcases hu with hu | hu | hu
          · exact h u (Or.inl hu)
          · simp only at hu
            injection hu with hu
            subst hu
            exact ⟨hhttp, hblock, hexcl⟩
          · exact h u (Or.inr (Or.inr hu))
        · split
          · intro u hu
            rcases hu with hu | hu | hu
            · exact h u (Or.inl hu)
            · exact h u (Or.inr (Or.inl hu))
            · simp only at hu
              injection hu with hu
              subst hu
              exact ⟨hhttp, hblock, hexcl⟩
          · exact h

theorem foldl_linkStep_ok (anchors : List Anchor) : ∀ ls : Links,
    LinksOk ls → LinksOk (anchors.foldl linkStep ls) := by
  induction anchors with
  | nil => intro ls h; exact h
  | cons a rest ih =>
      intro ls h
      exact ih (linkStep ls a) (linkStep_ok ls a h)

theorem optEntry_mem (label : String) (o : Option String) (e : String × String)
    (he : e ∈ optEntry label o) : o = some e.2 := by
  cases o with
  | none => simp [optEntry] at he
  | some u =>
      simp [optEntry] at he
      subst he
      rfl

theorem linkEntries_mem (ls : Links) (e : String × String)
    (he : e ∈ linkEntries ls) :
    ls.apply = some e.2 ∨ ls.notification = some e.2 ∨ ls.official = some e.2 := by
  unfold linkEntries at he
  rcases List.mem_append.mp he with he | he
  · rcases List.mem_append.mp he with he | he
    · exact Or.inl (optEntry_mem _ _ _ he)
    · exact Or.inr (Or.inl (optEntry_mem _ _ _ he))
  · exact Or.inr (Or.inr (optEntry_mem _ _ _ he))

theorem linkEntries_labels_nodup (ls : Links) :
    ((linkEntries ls).map Prod.fst).Nodup := by
  obtain ⟨oa, ob, oc⟩ := ls
  cases oa <;> cases ob <;> cases oc <;> simp [linkEntries, optEntry]

/-- Claim C5, amended: in every record produced by link categorization no two
entries share a label, and every entry's URL is an http(s) URL containing no
blocked aggregator domain and no output-excluded aggregator domain; a URL
may however be reused across two labels (the source never compares hrefs). -/
theorem link_invariants (anchors : List Anchor) :
    ((linkEntries (extract_links anchors)).map Prod.fst).Nodup ∧
    (∀ e ∈ linkEntries (extract_links anchors),
       startsWithStr e.2 "http" = true ∧ is_blocked e.2 = false ∧
         isExcludedOutput e.2 = false) := by
  refine ⟨linkEntries_labels_nodup _, ?_⟩
  have hok : LinksOk (extract_links anchors) := by
    apply foldl_linkStep_ok
    intro u hu
    rcases hu with hu | hu | hu <;> exact absurd hu (by simp)
  intro e he
  exact hok e.2 (linkEntries_mem _ e he)

/-! ## Link harvesters (the five scrapers consulted by `main`) -/

/-- Modelled from the spec: `urllib.parse.urljoin` (a standard-library
collaborator outside this repository) resolves a relative href against a
base URL; modelled as concatenation, which preserves everything the claims
depend on (the anchor text and the absolute-URL fast path). -/
def urljoinModel (base url : String) : String := base ++ url

/-- `make_absolute` from `scraper.py`. -/
def make_absolute (url base : String) : String :=
  if url = "" then ""
  else if startsWithStr url "http://" || startsWithStr url "https://" then url
  else urljoinModel base url

def fjaBase : String := "https://www.freejobalert.com"

def fjaListing : String := "https://www.freejobalert.com/latest-notifications/"

/-- The navigation stoplist of `scrape_freejobalert`'s table pass. -/
def FJA_STOP : List String := ["view more", "click here", "home", "about"]

/-- The URL-pattern skip list of `scrape_freejobalert`'s fallback pass. -/
def FJA_URLSKIP : List String := ["/category/", "/tag/", "/page/", "/author/"]

/-- One anchor of the table pass of `scrape_freejobalert` (method 1): kept
when the cleaned text has at least 10 characters, matches no stoplist phrase
case-insensitively, and the href is a freejobalert detail link. -/
def fjaM1Cand (a : Anchor) : Option (String × String) :=
  if (clean a.text).length < 10 then none
  else if FJA_STOP.any (fun s => containsSub (lowerStr (clean a.text)) s) then none
  else if containsSub a.href "freejobalert.com" &&
      !(containsSub a.href "/latest-notifications/") then
    some (clean a.text, make_absolute a.href fjaBase)
  else none

/-- One anchor of the fallback pass of `scrape_freejobalert` (method 2, run
only when the table pass found nothing): kept when the cleaned text has at
least 15 characters and the href is a freejobalert link that is neither the
listing page nor a category/tag/page/author URL. -/
def fjaM2Cand (a : Anchor) : Option (String × String) :=
  if (clean a.text).length < 15 then none
  else if containsSub a.href "freejobalert.com" then
    if FJA_URLSKIP.any (fun s => containsSub a.href s) then none
    else if !(a.href == fjaListing) && !(containsSub a.href "/latest-notifications/") then
      some (clean a.text, make_absolute a.href fjaBase)
    else none
  else none

/-- The URL dedup loop shared by the scrapers (`seen` set, first occurrence
kept); `p` is the extra URL condition of the loop (`sarkarinaukri.com` in the
URL for `scrape_sarkarinaukri`, vacuous elsewhere). -/
def dedupUrls (p : String → Bool) (seen : List String) :
    List (String × String) → List (String × String)
  | [] => []
  | (t, u) :: rest =>
      if !(seen.contains u) && p u then (t, u) :: dedupUrls p (u :: seen) rest
      else dedupUrls p seen rest

/-- `scrape_freejobalert`: table-pass candidates, the fallback pass only when
the table pass is empty, URL dedup, first 15 kept.  `tableAnchors` are the
anchors found inside table rows, `allAnchors` every anchor of the page, both
in document order. -/
def scrape_freejobalert (tableAnchors allAnchors : List Anchor) :
    List (String × String) :=
  (dedupUrls (fun _ => true) []
    (if (tableAnchors.filterMap fjaM1Cand).isEmpty then allAnchors.filterMap fjaM2Cand
     else tableAnchors.filterMap fjaM1Cand)).take 15

def enBase : String := "https://www.employmentnews.gov.in"

/-- The job keywords required by `scrape_employment_news`. -/
def EN_KEYWORDS : List String :=
  ["recruitment", "vacancy", "jobs", "walk-in", "admit", "result", "notification"]

/-- One anchor of `scrape_employment_news`: kept when the cleaned text has at
least 10 characters, contains a job keyword case-insensitively, and resolves
into the employmentnews domain. -/
def enCand (a : Anchor) : Option (String × String) :=
  if (clean a.text).length < 10 then none
  else if EN_KEYWORDS.any (fun kw => containsSub (lowerStr (clean a.text)) kw) then
    if containsSub (make_absolute a.href enBase) "employmentnews.gov.in" ||
        startsWithStr (make_absolute a.href enBase) enBase then
      some (clean a.text, make_absolute a.href enBase)
    else none
  else none

/-- `scrape_employment_news`: filtered anchors, URL dedup, first 10 kept. -/
def scrape_employment_news (anchors : List Anchor) : List (String × String) :=
  (dedupUrls (fun _ => true) [] (anchors.filterMap enCand)).take 10

def snBase : String := "https://www.sarkarinaukri.com"

/-- The navigation skip list of `scrape_sarkarinaukri`. -/
def SN_SKIP : List String :=
  ["home", "about", "contact", "privacy", "disclaimer", "advertise"]

/-- One anchor of `scrape_sarkarinaukri`: kept when the cleaned text has at
least 15 characters and matches no skip phrase, through either the
`/post/`-URL branch or the site-relative branch (which further requires more
than 20 characters of text). -/
def snCand (a : Anchor) : Option (String × String) :=
  if (clean a.text).length < 15 then none
  else if SN_SKIP.any (fun s => containsSub (lowerStr (clean a.text)) s) then none
  else if containsSub a.href "sarkarinaukri.com" && containsSub a.href "/post/" then
    some (clean a.text, a.href)
  else if startsWithStr a.href "/" && decide (20 < (clean a.text).length) then
    some (clean a.text, make_absolute a.href snBase)
  else none

/-- `scrape_sarkarinaukri`: filtered anchors, URL dedup additionally requiring
`sarkarinaukri.com` in the URL, first 10 kept. -/
def scrape_sarkarinaukri (anchors : List Anchor) : List (String × String) :=
  (dedupUrls (fun u => containsSub u "sarkarinaukri.com") []
    (anchors.filterMap snCand)).take 10

/-- One anchor of `scrape_fresherslive`: kept when the cleaned text has at
least 15 characters and the href is a fresherslive government-jobs link. -/
def flCand (a : Anchor) : Option (String × String) :=
  if (clean a.text).length < 15 then none
  else if containsSub a.href "fresherslive.com" &&
      (containsSub a.href "/government-jobs/" ||
       containsSub a.href "/central-govt-jobs/" ||
       containsSub a.href "/state-govt-jobs/") then
    some (clean a.text, a.href)
  else none

/-- `scrape_fresherslive`: filtered anchors, URL dedup, first 10 kept. -/
def scrape_fresherslive (anchors : List Anchor) : List (String × String) :=
  (dedupUrls (fun _ => true) [] (anchors.filterMap flCand)).take 10

/-- One anchor of `scrape_hirelateral`: kept when the cleaned text has more
than 15 characters and the href is a hirelateral job link. -/
def hlCand (a : Anchor) : Option (String × String) :=
  if decide (15 < (clean a.text).length) && containsSub a.href "hirelateral.com" &&
      (containsSub a.href "/job/" || containsSub a.href "/government") then
    some (clean a.text, a.href)
  else none

/-- `scrape_hirelateral`: filtered anchors, URL dedup, first 10 kept. -/
def scrape_hirelateral (anchors : List Anchor) : List (String × String) :=
  (dedupUrls (fun _ => true) [] (anchors.filterMap hlCand)).take 10

/-! ## Harvester lemmas -/

theorem dedupUrls_subset (p : String → Bool) :
    ∀ (l : List (String × String)) (seen : List String) (x : String × String),
      x ∈ dedupUrls p seen l → x ∈ l := by
  intro l
  induction l with
  | nil => intro seen x hx; simp [dedupUrls] at hx
  | cons hd tl ih =>
      intro seen x hx
      obtain ⟨t, u⟩ := hd
      unfold dedupUrls at hx
      by_cases h : (!(seen.contains u) && p u) = true
      · rw [if_pos h] at hx
        rcases List.mem_cons.mp hx with rfl | hx
        · exact List.mem_cons_self _ _
        · exact List.mem_cons_of_mem _ (ih (u :: seen) x hx)
      · rw [if_neg h] at hx
        exact List.mem_cons_of_mem _ (ih seen x hx)

/-- An element of a harvester's output comes from some anchor through the
per-anchor candidate function. -/
theorem harvest_mem (cand : Anchor → Option (String × String))
    (p : String → Bool) (anchors : List Anchor) (n : Nat) (x : String × String)
    (hx : x ∈ (dedupUrls p [] (anchors.filterMap cand)).take n) :
    ∃ a ∈ anchors, cand a = some x := by
  have h1 : x ∈ dedupUrls p [] (anchors.filterMap cand) :=
    List.take_subset _ _ hx
  have h2 : x ∈ anchors.filterMap cand := dedupUrls_subset p _ _ _ h1
  exact List.mem_filterMap.mp h2

theorem lowerStr_clickhere_length (t : String) (h : lowerStr t = "click here") :
    t.length = 10 := by
  have := lowerStr_length t
  rw [h] at this
  exact this.symm

theorem fjaM1Cand_no_clickhere (a : Anchor) (t u : String)
    (h : fjaM1Cand a = some (t, u)) : lowerStr t ≠ "click here" := by
  unfold fjaM1Cand at h
  split at h
  · exact absurd h (by simp)
  · split at h
    · exact absurd h (by simp)
    · split at h
      · rename_i hstop _
        injection h with h
        injection h with h1 h2
        subst h1
        intro heq
        apply hstop
        rw [List.any_eq_true]
        refine ⟨"click here", by decide, ?_⟩
        rw [heq]
        exact containsSub_self _
      · exact absurd h (by simp)

theorem fjaM2Cand_no_clickhere (a : Anchor) (t u : String)
    (h : fjaM2Cand a = some (t, u)) : lowerStr t ≠ "click here" := by
  unfold fjaM2Cand at h
  split at h
  · exact absurd h (by simp)
  · rename_i hlen
    split at h
    · split at h
      · exact absurd h (by simp)
      · split at h
        · injection h with h
          injection h with h1 h2
          subst h1
          intro heq
          have := lowerStr_clickhere_length _ heq
          omega
        · exact absurd h (by simp)
    · exact absurd h (by simp)

theorem enCand_no_clickhere (a : Anchor) (t u : String)
    (h : enCand a = some (t, u)) : lowerStr t ≠ "click here" := by
  unfold enCand at h
  split at h
  · exact absurd h (by simp)
  · split at h
    · rename_i hkw
      split at h
      · injection h with h
        injection h with h1 h2
        subst h1
        intro heq
        rw [List.any_eq_true] at hkw
        obtain ⟨kw, hkmem, hkc⟩ := hkw
        rw [heq] at hkc
        have hall : ∀ kw ∈ EN_KEYWORDS, containsSub "click here" kw = false := by
          decide
        rw [hall kw hkmem] at hkc
        exact absurd hkc (by decide)
      · exact absurd h (by simp)
    · exact absurd h (by simp)

theorem snCand_no_clickhere (a : Anchor) (t u : String)
    (h : snCand a = some (t, u)) : lowerStr t ≠ "click here" := by
  unfold snCand at h
  split at h
  · exact absurd h (by simp)
  · rename_i hlen
    split at h
    · exact absurd h (by simp)
    · split at h
      · injection h with h
        injection h with h1 h2
        subst h1
        intro heq
        have := lowerStr_clickhere_length _ heq
        omega
      · split at h
        · injection h with h
          injection h with h1 h2
          subst h1
          intro heq
          have := lowerStr_clickhere_length _ heq
          omega
        · exact absurd h (by simp)

theorem flCand_no_clickhere (a : Anchor) (t u : String)
    (h : flCand a = some (t, u)) : lowerStr t ≠ "click here" := by
  unfold flCand at h
  split at h
  · exact absurd h (by simp)
  · rename_i hlen
    split at h
    · injection h with h
      injection h with h1 h2
      subst h1
      intro heq
      have := lowerStr_clickhere_length _ heq
      omega
    · exact absurd h (by simp)

theorem hlCand_no_clickhere (a : Anchor) (t u : String)
    (h : hlCand a = some (t, u)) : lowerStr t ≠ "click here" := by
  unfold hlCand at h
  split at h
  · rename_i hcond
    rw [Bool.and_eq_true, Bool.and_eq_true] at hcond
    obtain ⟨⟨hlen, _⟩, _⟩ := hcond
    rw [decide_eq_true_eq] at hlen
    injection h with h
    injection h with h1 h2
    subst h1
    intro heq
    have := lowerStr_clickhere_length _ heq
    omega
  · exact absurd h (by simp)

/-! ## Claim theorems: harvesters -/

/-- Claim C6, counterexample: the claim extends the exclusion to every
stoplist navigation phrase, but the FreeJobAlert table pass only stops
"view more", "click here", "home" and "about": an anchor whose text contains
the stoplist phrase "read more" and points at a same-domain URL is returned
as a candidate. -/
theorem harvester_stoplist_cex :
    containsSub (lowerStr "Read More Recruitment Details") "read more" = true ∧
    ("Read More Recruitment Details",
      "https://www.freejobalert.com/upsc-recruitment-2025") ∈
      scrape_freejobalert
        [⟨"Read More Recruitment Details",
          "https://www.freejobalert.com/upsc-recruitment-2025"⟩] [] := by
  decide

/-- Claim C6, amended: an anchor whose cleaned text case-folds to exactly
"click here" is excluded from the candidates of every harvesting path — by
the stoplist in the FreeJobAlert table pass, and by the minimum-length or
job-keyword filters elsewhere — but the other stoplist phrases of the spec
are not uniformly excluded (for example "read more" passes the FreeJobAlert
table pass). -/
theorem click_here_excluded :
    (∀ tableAnchors allAnchors t u,
       (t, u) ∈ scrape_freejobalert tableAnchors allAnchors →
       lowerStr t ≠ "click here") ∧
    (∀ anchors t u, (t, u) ∈ scrape_employment_news anchors →
       lowerStr t ≠ "click here") ∧
    (∀ anchors t u, (t, u) ∈ scrape_sarkarinaukri anchors →
       lowerStr t ≠ "click here") ∧
    (∀ anchors t u, (t, u) ∈ scrape_fresherslive anchors →
       lowerStr t ≠ "click here") ∧
    (∀ anchors t u, (t, u) ∈ scrape_hirelateral anchors →
       lowerStr t ≠ "click here") := by
  refine ⟨?_, ?_, ?_, ?_, ?_⟩
  · intro tableAnchors allAnchors t u hmem
    unfold scrape_freejobalert at hmem
    by_cases hempty : (tableAnchors.filterMap fjaM1Cand).isEmpty
    · rw [if_pos hempty] at hmem
      obtain ⟨a, _, ha⟩ := harvest_mem fjaM2Cand _ _ _ _ hmem
      exact fjaM2Cand_no_clickhere a t u ha
    · rw [if_neg hempty] at hmem
      obtain ⟨a, _, ha⟩ := harvest_mem fjaM1Cand _ _ _ _ hmem
      exact fjaM1Cand_no_clickhere a t u ha
  · intro anchors t u hmem
    obtain ⟨a, _, ha⟩ := harvest_mem enCand _ _ _ _ hmem
    exact enCand_no_clickhere a t u ha
  · intro anchors t u hmem
    obtain ⟨a, _, ha⟩ := harvest_mem snCand _ _ _ _ hmem
    exact snCand_no_clickhere a t u ha
  · intro anchors t u hmem
    obtain ⟨a, _, ha⟩ := harvest_mem flCand _ _ _ _ hmem
    exact flCand_no_clickhere a t u ha
  · intro anchors t u hmem
    obtain ⟨a, _, ha⟩ := harvest_mem hlCand _ _ _ _ hmem
    exact hlCand_no_clickhere a t u ha

end Scraper
